import Mathlib

/-!
Verification of the parser-combinator library (src/combinators.ts,
src/simple.ts) against its specification.

Modelling conventions (shallow embedding):
* A TypeScript string is modelled as `List Char` (`slice(0,n)` = `take n`,
  `slice(n)` = `drop n`, `charAt(0)` = the head, `length` = `length`).
* `ParseResult<T>` with its optional fields `value?: T` and
  `error?: string` is a structure whose `value : Option T` and
  `error : Option String` use `none` for an absent (`undefined`) field.
* `Result.Ok` / `Result.Error` is the two-constructor type `Res`.
* A `Parser<T>` object is its `parse` method: a function
  `List Char → ParseResult T`; the constructor-set fields become the
  function's parameters.
* The JavaScript expression `value || null` in `Optional` depends on the
  truthiness of the runtime value, so the model of `Optional` takes the
  truthiness test for the value type as an explicit function `falsy`;
  the JS `null` result is modelled as `Option.none` in the value.
* The `while (true)` loop of `ZeroOrMore` need not terminate (the body
  can fail to shrink the input), so it is modelled as a fuel-indexed
  loop `zeroOrMoreLoop` returning `none` exactly when the given number
  of iterations does not reach the exit of the loop.  `some r` for any
  sufficient fuel is the value the TypeScript loop returns.
* The error-message strings of the source contain apostrophes
  ("Couldn\x27t match", ...); they are rendered here without the
  apostrophe ("Could not match", ...), which no claim depends on.
-/

namespace PC

/-- `Result` enum of the source: `Ok` or `Error`. -/
inductive Res : Type where
  | Ok : Res
  | Error : Res
deriving DecidableEq, Repr

/-- A TypeScript string. -/
abbrev Str : Type := List Char

/-- `ParseResult<T>`: state, remainder, optional value, optional error. -/
structure ParseResult (T : Type) : Type where
  state : Res
  remainder : Str
  value : Option T
  error : Option String
deriving DecidableEq, Repr

/-- A `Parser<T>` object, identified with its `parse` method. -/
abbrev Parser (T : Type) : Type := Str → ParseResult T

/-- The value of a record when it is a wholesome success (state `Ok`
and `value` field present), and `none` otherwise.  Every combinator of
the library that inspects a sub-result tests exactly this
(`state == Result.Ok && value !== undefined`). -/
def okVal {A : Type} (r : ParseResult A) : Option A :=
  match r.state, r.value with
  | Res.Ok, some v => some v
  | _, _ => none

/-- `Match` (src/simple.ts): compares `input.slice(0, literal.length)`
with the literal; on equality succeeds with the literal as value and the
rest of the input as remainder, otherwise fails with the input as
remainder. -/
def Match (literal : Str) : Parser Str := fun input =>
  if input.take literal.length = literal then
    ⟨Res.Ok, input.drop literal.length, some literal, none⟩
  else
    ⟨Res.Error, input, none, some ("Could not match")⟩

/-- `Item` (src/simple.ts): fails on empty input, otherwise consumes one
character; `charAt(0)` is a one-character string, hence value `[c]`. -/
def Item : Parser Str := fun input =>
  match input with
  | [] => ⟨Res.Error, [], none, some ("Could not retrieve a single item, EOI")⟩
  | c :: rest => ⟨Res.Ok, rest, some [c], none⟩

/-- `isAlphabetic` (src/simple.ts) on a defined character: code point in
[65, 91) or [97, 123). -/
def isAlphabetic (ch : Char) : Bool :=
  (65 ≤ ch.toNat && ch.toNat < 91) || (97 ≤ ch.toNat && ch.toNat < 123)

/-- `isNumeric` (src/simple.ts): between the characters 0 and 9. -/
def isNumeric (ch : Char) : Bool :=
  '0' ≤ ch && ch ≤ '9'

/-- `isAlphanumeric` (src/simple.ts). -/
def isAlphanumeric (ch : Char) : Bool :=
  isAlphabetic ch || isNumeric ch

/-- `Identifier` (src/simple.ts): fails unless the first character is
alphabetic; then counts `c = 1` plus the following consecutive
characters that are alphanumeric or `-`, succeeding with
`input.slice(0, c)` as value and `input.slice(c)` as remainder. -/
def Identifier : Parser Str := fun input =>
  match input with
  | [] => ⟨Res.Error, [], none, some ("Could not parse identifier")⟩
  | c0 :: rest =>
    if isAlphabetic c0 then
      let k := 1 + (rest.takeWhile (fun c => isAlphanumeric c || c = '-')).length
      ⟨Res.Ok, (c0 :: rest).drop k, some ((c0 :: rest).take k), none⟩
    else
      ⟨Res.Error, c0 :: rest, none, some ("Could not parse identifier")⟩

/-- `Inspect.parse` returns the inner record unchanged (the `console.log`
is output only). -/
def Inspect {A : Type} (p : Parser A) : Parser A := fun input => p input

/-- `Pair.parse` (src/combinators.ts, lines 52-98): runs `parser1`; on a
wholesome success runs `parser2` on the first remainder; on two wholesome
successes returns the tuple with the second remainder; otherwise returns
`Error` with the original input as remainder and the failing record's
error. -/
def Pair {R1 R2 : Type} (p1 : Parser R1) (p2 : Parser R2) : Parser (R1 × R2) := fun input =>
  match (p1 input).state, (p1 input).value with
  | Res.Ok, some v1 =>
    match (p2 (p1 input).remainder).state, (p2 (p1 input).remainder).value with
    | Res.Ok, some v2 =>
      ⟨Res.Ok, (p2 (p1 input).remainder).remainder, some (v1, v2), none⟩
    | _, _ => ⟨Res.Error, input, none, (p2 (p1 input).remainder).error⟩
  | _, _ => ⟨Res.Error, input, none, (p1 input).error⟩

/-- `PMap.parse`: on a wholesome success applies `map_fn` to the value;
otherwise returns `{state, remainder, error}` of the inner record (the
state is passed through unchanged, the value is dropped). -/
def PMap {A B : Type} (p : Parser A) (map_fn : A → B) : Parser B := fun input =>
  match (p input).state, (p input).value with
  | Res.Ok, some v => ⟨Res.Ok, (p input).remainder, some (map_fn v), none⟩
  | _, _ => ⟨(p input).state, (p input).remainder, none, (p input).error⟩

/-- `Left.parse`: `PMap` of `Pair` projecting the first component. -/
def Left {R1 R2 : Type} (p1 : Parser R1) (p2 : Parser R2) : Parser R1 := fun input =>
  PMap (Pair p1 p2) (fun x => x.1) input

/-- `Right.parse`: `PMap` of `Pair` projecting the second component. -/
def Right {R1 R2 : Type} (p1 : Parser R1) (p2 : Parser R2) : Parser R2 := fun input =>
  PMap (Pair p1 p2) (fun x => x.2) input

/-- `Pred.parse` (src/combinators.ts, lines 233-253): on a wholesome
success whose value passes `pred_fn`, returns it; otherwise returns
`{state, remainder: input, error: "Failed predicate"}` — note that the
`state` field of the inner record is passed through UNCHANGED, so when
the inner parser succeeded and the predicate rejected the value the
returned record still has state `Ok`. -/
def Pred {A : Type} (p : Parser A) (pred_fn : A → Bool) : Parser A := fun input =>
  match (p input).state, (p input).value with
  | Res.Ok, some v =>
    if pred_fn v then ⟨Res.Ok, (p input).remainder, some v, none⟩
    else ⟨(p input).state, input, none, some ("Failed predicate")⟩
  | _, _ => ⟨(p input).state, input, none, some ("Failed predicate")⟩

/-- `FlatMap.parse` (src/combinators.ts, lines 332-349): on a wholesome
success returns `monad_fn(value).parse(remainder)` verbatim; otherwise
returns `{state, remainder, error}` of the inner record unchanged. -/
def FlatMap {A B : Type} (p : Parser A) (monad_fn : A → Parser B) : Parser B := fun input =>
  match (p input).state, (p input).value with
  | Res.Ok, some v => monad_fn v ((p input).remainder)
  | _, _ => ⟨(p input).state, (p input).remainder, none, (p input).error⟩

/-- Loop of `Either.parse`: tries each parser in order on the same
input, returning the first wholesome success (rebuilt without the error
field); when none succeeds, a generic failure with the input as
remainder. -/
def EitherGo {A : Type} (input : Str) : List (Parser A) → ParseResult A
  | [] => ⟨Res.Error, input, none, some ("No parser on the either succeed")⟩
  | p :: rest =>
    match (p input).state, (p input).value with
    | Res.Ok, some v => ⟨Res.Ok, (p input).remainder, some v, none⟩
    | _, _ => EitherGo input rest

/-- `Either.parse` over the constructor's parser array (modelled as a
list; the heterogeneous `unknown` value type is a type parameter). -/
def Either {A : Type} (parsers : List (Parser A)) : Parser A := fun input =>
  EitherGo input parsers

/-- `FixedEither.parse`: same body as `Either`, statically typed. -/
def FixedEitherGo {T : Type} (input : Str) : List (Parser T) → ParseResult T
  | [] => ⟨Res.Error, input, none, some ("No parser on the either succeed")⟩
  | p :: rest =>
    match (p input).state, (p input).value with
    | Res.Ok, some v => ⟨Res.Ok, (p input).remainder, some v, none⟩
    | _, _ => FixedEitherGo input rest

/-- `FixedEither.parse` over the constructor's parser array. -/
def FixedEither {T : Type} (parsers : List (Parser T)) : Parser T := fun input =>
  FixedEitherGo input parsers

/-- `Optional.parse` (src/combinators.ts, lines 361-372): always `Ok`,
remainder is the inner record's remainder, and the value is
`value || null`: JS `null` (modelled `none`) when the inner value field
is absent or the value is falsy under the value type's truthiness test
`falsy`, and the inner value otherwise. -/
def Optional {A : Type} (falsy : A → Bool) (p : Parser A) : Parser (Option A) := fun input =>
  ⟨Res.Ok, (p input).remainder,
    some (match (p input).value with
          | some v => if falsy v then none else some v
          | none => none),
    none⟩

/-- JS truthiness for strings: the empty string is falsy. -/
def falsyStr (s : Str) : Bool := s.isEmpty

/-- Loop of `Sequence.parse` (src/combinators.ts, lines 384-405): for
each parser, `input` is replaced by the returned remainder BEFORE the
state test; on `Error` the loop returns `Error` with that already
advanced remainder; when the list is exhausted, `Ok` with value the JS
`null` (the result type is `null`; `null` is modelled as `Unit`, so the
value field is `some ()`). -/
def SequenceGo {A : Type} : List (Parser A) → Str → ParseResult Unit
  | [], input => ⟨Res.Ok, input, some (), none⟩
  | p :: rest, input =>
    if (p input).state = Res.Error then
      ⟨Res.Error, (p input).remainder, none, some ("Could not fulfill sequence of parsers")⟩
    else
      SequenceGo rest ((p input).remainder)

/-- `Sequence.parse` over the constructor's parser array. -/
def Sequence {A : Type} (parsers : List (Parser A)) : Parser Unit := fun input =>
  SequenceGo parsers input

/-- The `while (true)` loop of `ZeroOrMore.parse` (src/combinators.ts,
lines 182-195), fuel-indexed: on a wholesome success of the inner
parser, pushes the value and continues on the remainder; otherwise exits
the loop returning `Ok` with the accumulated values and the current
input.  `none` means the given fuel was exhausted before the loop
exited; the TypeScript loop returns `r` exactly when this function
returns `some r` for every sufficiently large fuel. -/
def zeroOrMoreLoop {A : Type} (p : Parser A) : Nat → Str → List A → Option (ParseResult (List A))
  | 0, _, _ => none
  | fuel + 1, input, acc =>
    match (p input).state, (p input).value with
    | Res.Ok, some v => zeroOrMoreLoop p fuel ((p input).remainder) (acc ++ [v])
    | _, _ => some ⟨Res.Ok, input, some acc, none⟩

/-- `ZeroOrMore.parse` with explicit fuel, starting from the empty
accumulator. -/
def ZeroOrMore {A : Type} (p : Parser A) (fuel : Nat) (input : Str) :
    Option (ParseResult (List A)) :=
  zeroOrMoreLoop p fuel input []

/-- `OneOrMore.parse`: `PMap (Pair p (ZeroOrMore p)) unshift`, unfolded
with the fuel of the inner `ZeroOrMore` loop threaded through. -/
def OneOrMore {A : Type} (p : Parser A) (fuel : Nat) (input : Str) :
    Option (ParseResult (List A)) :=
  match (p input).state, (p input).value with
  | Res.Ok, some v1 =>
    match zeroOrMoreLoop p fuel ((p input).remainder) [] with
    | none => none
    | some r2 =>
      match r2.state, r2.value with
      | Res.Ok, some vs => some ⟨Res.Ok, r2.remainder, some (v1 :: vs), none⟩
      | _, _ => some ⟨Res.Error, input, none, r2.error⟩
  | _, _ => some ⟨Res.Error, input, none, (p input).error⟩


/-- Both-state threading of `Sequence.parse`: the input reached after
running each listed parser in turn, taking every returned remainder
(this is how the loop advances `input` unconditionally). -/
def threadRem {A : Type} : List (Parser A) → Str → Str
  | [], s => s
  | p :: rest, s => threadRem rest ((p s).remainder)

/-- Whether every parser of the list, applied in turn to the advancing
remainder, returns a non-`Error` state. -/
def allOk {A : Type} : List (Parser A) → Str → Bool
  | [], _ => true
  | p :: rest, s =>
    if (p s).state = Res.Error then false else allOk rest ((p s).remainder)

/-- C5: `Pair(P1, P2).parse(s)` succeeds with the 2-tuple of values and
P2's remainder when P1 succeeds on s and P2 succeeds on P1's remainder;
when either sub-parser fails, it returns Failure with remainder equal to
the original s, carrying the failing sub-parser's error field; and
concretely `Pair(Match("Hello"), Item).parse("Hello World")` succeeds
with value ("Hello", " ") and remainder "World".  (A sub-parser
"succeeds" when its record has state `Ok` and a present value, the test
every combinator of the library applies.) -/
theorem pair_spec {R1 R2 : Type} (p1 : Parser R1) (p2 : Parser R2) (s : Str) :
    ((∀ v1, (p1 s).state = Res.Ok → (p1 s).value = some v1 →
      (∀ v2, (p2 (p1 s).remainder).state = Res.Ok →
          (p2 (p1 s).remainder).value = some v2 →
        Pair p1 p2 s
          = ⟨Res.Ok, (p2 (p1 s).remainder).remainder, some (v1, v2), none⟩) ∧
      (okVal (p2 (p1 s).remainder) = none →
        Pair p1 p2 s = ⟨Res.Error, s, none, (p2 (p1 s).remainder).error⟩)) ∧
    (okVal (p1 s) = none →
      Pair p1 p2 s = ⟨Res.Error, s, none, (p1 s).error⟩)) ∧
    Pair (Match ("Hello".toList)) Item ("Hello World".toList)
      = ⟨Res.Ok, ("World".toList), some (("Hello".toList), (" ".toList)), none⟩ := by
  refine ⟨⟨?_, ?_⟩, by decide⟩
  · intro v1 h1 hv1
    refine ⟨?_, ?_⟩
    · intro v2 h2 hv2
      simp only [Pair, h1, hv1, h2, hv2]
    · intro hko
      simp only [Pair, h1, hv1]
      cases h2 : (p2 (p1 s).remainder).state <;>
        cases hv2 : (p2 (p1 s).remainder).value <;>
        simp only [okVal, h2, hv2] at hko ⊢ <;> simp_all
  · intro hko
    simp only [Pair]
    cases h1 : (p1 s).state <;> cases hv1 : (p1 s).value <;>
      simp only [okVal, h1, hv1] at hko ⊢ <;> simp_all

/-- C5 witness: the theorem applied to `Pair(Match("a"), Item)` on
"ab". -/
theorem pair_spec_witness :
    Pair (Match ("a".toList)) Item ("ab".toList)
      = ⟨Res.Ok, [], some (("a".toList), ("b".toList)), none⟩ :=
  ((pair_spec (Match ("a".toList)) Item ("ab".toList)).1.1
    ("a".toList) (by decide) (by decide)).1 ("b".toList) (by decide) (by decide)

/-- C6: `Sequence` applies the sub-parsers in order; it stops at the
first one returning an `Error` state and returns `Error` with remainder
the input position already reached at that point (the failing
sub-parser's own remainder, not reset to s); if every sub-parser returns
a non-`Error` state, it returns `Ok` with the JS-null value and the
final threaded remainder. -/
theorem sequence_spec {A : Type} (ps : List (Parser A)) (s : Str) :
    (allOk ps s = true ∧
      Sequence ps s = ⟨Res.Ok, threadRem ps s, some (), none⟩) ∨
    (∃ pre p suf, ps = pre ++ p :: suf ∧ allOk pre s = true ∧
      (p (threadRem pre s)).state = Res.Error ∧
      Sequence ps s
        = ⟨Res.Error, (p (threadRem pre s)).remainder, none,
            some ("Could not fulfill sequence of parsers")⟩) := by
  induction ps generalizing s with
  | nil => exact Or.inl ⟨rfl, rfl⟩
  | cons p rest ih =>
    by_cases h : (p s).state = Res.Error
    · refine Or.inr ⟨[], p, rest, rfl, rfl, ?_, ?_⟩
      · simpa [threadRem] using h
      · simp [Sequence, SequenceGo, h, threadRem]
    · rcases ih ((p s).remainder) with ⟨hok, heq⟩ | ⟨pre, q, suf, hsplit, hok, herr, heq⟩
      · refine Or.inl ⟨?_, ?_⟩
        · simp [allOk, h, hok]
        · simpa [Sequence, SequenceGo, h, threadRem] using heq
      · refine Or.inr ⟨p :: pre, q, suf, by simp [hsplit], ?_, ?_, ?_⟩
        · simp [allOk, h, hok]
        · simpa [threadRem] using herr
        · simpa [Sequence, SequenceGo, h, threadRem] using heq

/-- C9: when the inner parser succeeds with a falsy value, `Optional`
returns Success with value JS-null (modelled `none`) — the same marker
as when the inner value field is absent — while the remainder is still
the inner parser's remainder; concretely `Optional(Match(""))` on "x"
succeeds with value null and remainder "x" although `Match("")`
succeeded there with the (falsy) empty-string value. -/
theorem optional_falsy_spec {A : Type} (falsy : A → Bool) (p : Parser A) (s : Str) :
    ((∀ v, (p s).state = Res.Ok → (p s).value = some v → falsy v = true →
      Optional falsy p s = ⟨Res.Ok, (p s).remainder, some none, none⟩) ∧
    ((p s).value = none →
      Optional falsy p s = ⟨Res.Ok, (p s).remainder, some none, none⟩)) ∧
    ((Match ([] : Str) ("x".toList)).state = Res.Ok ∧
      (Match ([] : Str) ("x".toList)).value = some [] ∧
      falsyStr [] = true ∧
      Optional falsyStr (Match ([] : Str)) ("x".toList)
        = ⟨Res.Ok, ("x".toList), some none, none⟩) := by
  refine ⟨⟨?_, ?_⟩, by decide⟩
  · intro v _ hv hf
    simp only [Optional, hv, hf]
    simp
  · intro hv
    simp only [Optional, hv]

/-- C9 witness: the theorem applied to `Item` (whose one-character value
is never falsy, but whose record on "" has no value) on the empty
input. -/
theorem optional_falsy_spec_witness :
    Optional falsyStr Item [] = ⟨Res.Ok, [], some none, none⟩ :=
  (optional_falsy_spec falsyStr Item []).1.2 (by decide)

/-- A record that satisfies the record invariant stated by the spec: on
`Ok` the value is present and the error absent; on `Error` the error is
present and the value absent. -/
def Inv {T : Type} (r : ParseResult T) : Prop :=
  (r.state = Res.Ok → r.value.isSome ∧ r.error = none) ∧
  (r.state = Res.Error → r.error.isSome ∧ r.value = none)

/-- A parser every one of whose records satisfies the invariant. -/
def InvP {T : Type} (p : Parser T) : Prop := ∀ s, Inv (p s)

/-- An invariant-satisfying record is a wholesome success or a wholesome
failure, stated field by field. -/
theorem inv_cases {T : Type} {r : ParseResult T} (h : Inv r) :
    (r.state = Res.Ok ∧ (∃ v, r.value = some v) ∧ r.error = none) ∨
    (r.state = Res.Error ∧ r.value = none ∧ ∃ e, r.error = some e) := by
  obtain ⟨hOk, hErr⟩ := h
  cases hs : r.state
  · obtain ⟨hv, he⟩ := hOk hs
    obtain ⟨v, hv⟩ := Option.isSome_iff_exists.mp hv
    exact Or.inl ⟨rfl, ⟨v, hv⟩, he⟩
  · obtain ⟨he, hv⟩ := hErr hs
    obtain ⟨e, he⟩ := Option.isSome_iff_exists.mp he
    exact Or.inr ⟨rfl, hv, ⟨e, he⟩⟩

theorem invP_match (lit : Str) : InvP (Match lit) := by
  intro s
  by_cases h : s.take lit.length = lit <;> simp [Match, h, Inv]

theorem invP_item : InvP Item := by
  intro s
  cases s <;> simp [Item, Inv]

theorem invP_identifier : InvP Identifier := by
  intro s
  cases s with
  | nil => simp [Identifier, Inv]
  | cons c0 rest => by_cases h : isAlphabetic c0 <;> simp [Identifier, h, Inv]

theorem invP_inspect {A : Type} {p : Parser A} (h : InvP p) : InvP (Inspect p) := h

theorem invP_pair {R1 R2 : Type} {p1 : Parser R1} {p2 : Parser R2}
    (h1 : InvP p1) (h2 : InvP p2) : InvP (Pair p1 p2) := by
  intro s
  rcases inv_cases (h1 s) with ⟨hs1, ⟨v1, hv1⟩, he1⟩ | ⟨hs1, hv1, e1, he1⟩
  · rcases inv_cases (h2 ((p1 s).remainder)) with ⟨hs2, ⟨v2, hv2⟩, he2⟩ | ⟨hs2, hv2, e2, he2⟩
    · simp [Pair, hs1, hv1, hs2, hv2, Inv]
    · simp [Pair, hs1, hv1, hs2, hv2, he2, Inv]
  · simp [Pair, hs1, hv1, he1, Inv]

theorem invP_pmap {A B : Type} {p : Parser A} (f : A → B) (h : InvP p) :
    InvP (PMap p f) := by
  intro s
  rcases inv_cases (h s) with ⟨hs1, ⟨v, hv⟩, he⟩ | ⟨hs1, hv, e, he⟩
  · simp [PMap, hs1, hv, Inv]
  · simp [PMap, hs1, hv, he, Inv]

theorem invP_left {R1 R2 : Type} {p1 : Parser R1} {p2 : Parser R2}
    (h1 : InvP p1) (h2 : InvP p2) : InvP (Left p1 p2) := by
  intro s
  exact invP_pmap _ (invP_pair h1 h2) s

theorem invP_right {R1 R2 : Type} {p1 : Parser R1} {p2 : Parser R2}
    (h1 : InvP p1) (h2 : InvP p2) : InvP (Right p1 p2) := by
  intro s
  exact invP_pmap _ (invP_pair h1 h2) s

theorem invP_flatMap {A B : Type} {p : Parser A} {f : A → Parser B}
    (h : InvP p) (hf : ∀ v, InvP (f v)) : InvP (FlatMap p f) := by
  intro s
  rcases inv_cases (h s) with ⟨hs1, ⟨v, hv⟩, he⟩ | ⟨hs1, hv, e, he⟩
  · simpa [FlatMap, hs1, hv] using hf v ((p s).remainder)
  · simp [FlatMap, hs1, hv, he, Inv]

theorem inv_eitherGo {A : Type} (s : Str) (ps : List (Parser A)) :
    Inv (EitherGo s ps) := by
  induction ps with
  | nil => simp [EitherGo, Inv]
  | cons p rest ih =>
    cases hs1 : (p s).state <;> cases hv1 : (p s).value <;>
      simp only [EitherGo, hs1, hv1] <;>
      first
        | exact ih
        | simp [Inv]

theorem invP_either {A : Type} (ps : List (Parser A)) : InvP (Either ps) :=
  fun s => inv_eitherGo s ps

theorem inv_fixedEitherGo {T : Type} (s : Str) (ps : List (Parser T)) :
    Inv (FixedEitherGo s ps) := by
  induction ps with
  | nil => simp [FixedEitherGo, Inv]
  | cons p rest ih =>
    cases hs1 : (p s).state <;> cases hv1 : (p s).value <;>
      simp only [FixedEitherGo, hs1, hv1] <;>
      first
        | exact ih
        | simp [Inv]

theorem invP_fixedEither {T : Type} (ps : List (Parser T)) : InvP (FixedEither ps) :=
  fun s => inv_fixedEitherGo s ps

theorem invP_optional {A : Type} (falsy : A → Bool) (p : Parser A) :
    InvP (Optional falsy p) := by
  intro s
  simp [Optional, Inv]

theorem inv_sequenceGo {A : Type} (ps : List (Parser A)) (s : Str) :
    Inv (SequenceGo ps s) := by
  induction ps generalizing s with
  | nil => simp [SequenceGo, Inv]
  | cons p rest ih =>
    by_cases hs1 : (p s).state = Res.Error <;>
      simp only [SequenceGo, hs1, if_true, if_false] <;>
      first
        | exact ih _
        | simp [Inv]

theorem invP_sequence {A : Type} (ps : List (Parser A)) : InvP (Sequence ps) :=
  fun s => inv_sequenceGo ps s

/-- Every record the `ZeroOrMore` loop can return is a wholesome success
carrying the accumulated list. -/
theorem zeroOrMoreLoop_shape {A : Type} (p : Parser A) :
    ∀ fuel s acc r, zeroOrMoreLoop p fuel s acc = some r →
      r.state = Res.Ok ∧ (∃ vs, r.value = some vs) ∧ r.error = none := by
  intro fuel
  induction fuel with
  | zero => intro s acc r h; simp [zeroOrMoreLoop] at h
  | succ n ih =>
    intro s acc r h
    cases hs1 : (p s).state <;> cases hv1 : (p s).value <;>
      simp only [zeroOrMoreLoop, hs1, hv1] at h <;>
      first
        | exact ih _ _ _ h
        | (injection h with h; rw [← h]; exact ⟨rfl, ⟨acc, rfl⟩, rfl⟩)

theorem inv_zeroOrMore {A : Type} (p : Parser A) (fuel : Nat) (s : Str)
    (r : ParseResult (List A)) (h : ZeroOrMore p fuel s = some r) : Inv r := by
  obtain ⟨h1, ⟨vs, h2⟩, h3⟩ := zeroOrMoreLoop_shape p fuel s [] r h
  exact ⟨fun _ => ⟨by simp [h2], h3⟩, fun hc => by simp [h1] at hc⟩

theorem inv_oneOrMore {A : Type} {p : Parser A} (hp : InvP p) (fuel : Nat) (s : Str)
    (r : ParseResult (List A)) (h : OneOrMore p fuel s = some r) : Inv r := by
  rcases inv_cases (hp s) with ⟨hs1, ⟨v, hv⟩, he⟩ | ⟨hs1, hv, e, he⟩
  · simp only [OneOrMore, hs1, hv] at h
    cases hloop : zeroOrMoreLoop p fuel ((p s).remainder) [] with
    | none => simp [hloop] at h
    | some r2 =>
      obtain ⟨g1, ⟨vs, g2⟩, g3⟩ := zeroOrMoreLoop_shape p fuel ((p s).remainder) [] r2 hloop
      simp [hloop, g1, g2] at h
      simp [← h, Inv]
  · simp only [OneOrMore, hs1, hv] at h
    simp [hs1] at h
    simp [← h, he, Inv]

theorem pred_inv_of_error {A : Type} (p : Parser A) (f : A → Bool) (s : Str)
    (hs : (p s).state = Res.Error) : Inv (Pred p f s) := by
  cases hv : (p s).value <;> simp [Pred, hs, hv, Inv]

theorem pred_inv_of_accept {A : Type} (p : Parser A) (f : A → Bool) (s : Str) (v : A)
    (hs : (p s).state = Res.Ok) (hv : (p s).value = some v) (hf : f v = true) :
    Inv (Pred p f s) := by
  simp [Pred, hs, hv, hf, Inv]

theorem pred_not_inv_of_reject {A : Type} (p : Parser A) (f : A → Bool) (s : Str) (v : A)
    (hs : (p s).state = Res.Ok) (hv : (p s).value = some v) (hf : f v = false) :
    ¬ Inv (Pred p f s) := by
  simp [Pred, hs, hv, hf, Inv]

/-- C1 counterexample: `Item` succeeds on "x" with value "x", the
predicate `false` rejects it, yet `Pred(Item, false).parse("x")` has
state `Ok` — NOT the `Failure` outcome the claim requires — while
carrying the "Failed predicate" error and no value. -/
theorem pred_claim_counterexample :
    (Item ("x".toList)).state = Res.Ok ∧
    (Item ("x".toList)).value = some ("x".toList) ∧
    (Pred Item (fun _ => false) ("x".toList)).state = Res.Ok ∧
    (Pred Item (fun _ => false) ("x".toList)).state ≠ Res.Error ∧
    (Pred Item (fun _ => false) ("x".toList)).remainder = ("x".toList) ∧
    (Pred Item (fun _ => false) ("x".toList)).value = none ∧
    (Pred Item (fun _ => false) ("x".toList)).error = some ("Failed predicate") := by
  decide

/-- C1 (amended): `Pred(P, f).parse(s)` returns a record with a present
value iff P succeeds on s with a value accepted by f, and it then uses
P's remainder and value; in every other case the record has no value,
remainder s and error "Failed predicate", but its STATE merely copies
P's state: `Ok` when P succeeded and f rejected the value, and P's
failing state when P failed. -/
theorem pred_spec_amended {A : Type} (p : Parser A) (f : A → Bool) (s : Str) :
    (∀ v, (p s).state = Res.Ok → (p s).value = some v → f v = true →
      Pred p f s = ⟨Res.Ok, (p s).remainder, some v, none⟩) ∧
    (∀ v, (p s).state = Res.Ok → (p s).value = some v → f v = false →
      Pred p f s = ⟨Res.Ok, s, none, some ("Failed predicate")⟩) ∧
    (okVal (p s) = none →
      Pred p f s = ⟨(p s).state, s, none, some ("Failed predicate")⟩) := by
  refine ⟨?_, ?_, ?_⟩
  · intro v hs hv hf
    simp [Pred, hs, hv, hf]
  · intro v hs hv hf
    simp [Pred, hs, hv, hf]
  · intro hko
    cases hs : (p s).state <;> cases hv : (p s).value <;>
      simp only [okVal, hs, hv] at hko ⊢ <;> simp_all [Pred]

/-- C1 witness: the amended theorem applied to `Item` with an accepting
predicate on "ab". -/
theorem pred_spec_amended_witness :
    Pred Item (fun _ => true) ("ab".toList)
      = ⟨Res.Ok, (Item ("ab".toList)).remainder, some ("a".toList), none⟩ :=
  (pred_spec_amended Item (fun _ => true) ("ab".toList)).1
    ("a".toList) (by decide) (by decide) (by decide)

/-- C2 counterexample: the record `Pred(Match("a"), false).parse("ab")`
is returned to the caller with Success outcome, yet its value field is
absent and its error field is present — violating the record
invariant. -/
theorem record_invariant_counterexample :
    (Pred (Match ("a".toList)) (fun _ => false) ("ab".toList)).state = Res.Ok ∧
    (Pred (Match ("a".toList)) (fun _ => false) ("ab".toList)).value = (none : Option Str) ∧
    (Pred (Match ("a".toList)) (fun _ => false) ("ab".toList)).error
      = some ("Failed predicate") ∧
    ¬ Inv (Pred (Match ("a".toList)) (fun _ => false) ("ab".toList)) := by
  refine ⟨by decide, by decide, by decide, ?_⟩
  exact pred_not_inv_of_reject _ _ _ ("a".toList) (by decide) (by decide) (by decide)

/-- C2 (amended): every leaf parser satisfies the record invariant (on
Success the value is present and the error absent; on Failure the error
is present and the value absent), and every combinator EXCEPT `Pred`
returns invariant-satisfying records whenever its sub-parsers do;
`Pred` does so when its sub-parser fails or the predicate accepts, but
when its sub-parser succeeds with a value the predicate rejects, the
returned record violates the invariant (Success outcome with value
absent and error present). -/
theorem record_invariant_amended :
    (∀ lit : Str, InvP (Match lit)) ∧
    InvP Item ∧
    InvP Identifier ∧
    (∀ (A : Type) (p : Parser A), InvP p → InvP (Inspect p)) ∧
    (∀ (R1 R2 : Type) (p1 : Parser R1) (p2 : Parser R2),
      InvP p1 → InvP p2 → InvP (Pair p1 p2)) ∧
    (∀ (R1 R2 : Type) (p1 : Parser R1) (p2 : Parser R2),
      InvP p1 → InvP p2 → InvP (Left p1 p2)) ∧
    (∀ (R1 R2 : Type) (p1 : Parser R1) (p2 : Parser R2),
      InvP p1 → InvP p2 → InvP (Right p1 p2)) ∧
    (∀ (A B : Type) (p : Parser A) (f : A → B), InvP p → InvP (PMap p f)) ∧
    (∀ (A B : Type) (p : Parser A) (f : A → Parser B),
      InvP p → (∀ v, InvP (f v)) → InvP (FlatMap p f)) ∧
    (∀ (A : Type) (ps : List (Parser A)), InvP (Either ps)) ∧
    (∀ (T : Type) (ps : List (Parser T)), InvP (FixedEither ps)) ∧
    (∀ (A : Type) (falsy : A → Bool) (p : Parser A), InvP (Optional falsy p)) ∧
    (∀ (A : Type) (ps : List (Parser A)), InvP (Sequence ps)) ∧
    (∀ (A : Type) (p : Parser A) (fuel : Nat) (s : Str) (r : ParseResult (List A)),
      ZeroOrMore p fuel s = some r → Inv r) ∧
    (∀ (A : Type) (p : Parser A), InvP p →
      ∀ (fuel : Nat) (s : Str) (r : ParseResult (List A)),
        OneOrMore p fuel s = some r → Inv r) ∧
    (∀ (A : Type) (p : Parser A) (f : A → Bool) (s : Str),
      (p s).state = Res.Error → Inv (Pred p f s)) ∧
    (∀ (A : Type) (p : Parser A) (f : A → Bool) (s : Str) (v : A),
      (p s).state = Res.Ok → (p s).value = some v → f v = true → Inv (Pred p f s)) ∧
    (∀ (A : Type) (p : Parser A) (f : A → Bool) (s : Str) (v : A),
      (p s).state = Res.Ok → (p s).value = some v → f v = false →
        ¬ Inv (Pred p f s)) := by
  refine ⟨invP_match, invP_item, invP_identifier,
    fun A p h => invP_inspect h,
    fun R1 R2 p1 p2 h1 h2 => invP_pair h1 h2,
    fun R1 R2 p1 p2 h1 h2 => invP_left h1 h2,
    fun R1 R2 p1 p2 h1 h2 => invP_right h1 h2,
    fun A B p f h => invP_pmap f h,
    fun A B p f h hf => invP_flatMap h hf,
    fun A ps => invP_either ps,
    fun T ps => invP_fixedEither ps,
    fun A falsy p => invP_optional falsy p,
    fun A ps => invP_sequence ps,
    fun A p fuel s r h => inv_zeroOrMore p fuel s r h,
    fun A p hp fuel s r h => inv_oneOrMore hp fuel s r h,
    fun A p f s hs => pred_inv_of_error p f s hs,
    fun A p f s v hs hv hf => pred_inv_of_accept p f s v hs hv hf,
    fun A p f s v hs hv hf => pred_not_inv_of_reject p f s v hs hv hf⟩

/-- C2 witness: the amended theorem's `Pred` violation clause applied to
`Pred(Item, false)` on "ab". -/
theorem record_invariant_amended_witness :
    ¬ Inv (Pred Item (fun _ => false) ("ab".toList)) :=
  record_invariant_amended.2.2.2.2.2.2.2.2.2.2.2.2.2.2.2.2.2
    Str Item (fun _ => false) ("ab".toList) ("a".toList)
    (by decide) (by decide) (by decide)

/-- C3 counterexample: `Match("ab")` consumes "ab" from "abc", the bound
parser `Match("z")` then fails on the remainder "c", and the failure
record `FlatMap` propagates has remainder "c" — the already-advanced
position — not the original input "abc". -/
theorem flatMap_claim_counterexample :
    (FlatMap (Match ("ab".toList)) (fun _ => Match ("z".toList)) ("abc".toList)).state
      = Res.Error ∧
    (FlatMap (Match ("ab".toList)) (fun _ => Match ("z".toList)) ("abc".toList)).remainder
      ≠ ("abc".toList) ∧
    (FlatMap (Match ("ab".toList)) (fun _ => Match ("z".toList)) ("abc".toList)).remainder
      = ("c".toList) := by
  decide

/-- C3 (amended): when P fails, `FlatMap(P, f).parse(s)` returns Failure
with P's own remainder and error; when P succeeds with a value,
`FlatMap` returns the record of `f(value).parse(P.remainder)` verbatim —
so a Failure arising in the continuation keeps the continuation's
already-advanced remainder rather than s; when P reports `Ok` without a
value, the inner record's state, remainder and error pass through. -/
theorem flatMap_spec_amended {A B : Type} (p : Parser A) (f : A → Parser B) (s : Str) :
    ((p s).state = Res.Error →
      FlatMap p f s = ⟨Res.Error, (p s).remainder, none, (p s).error⟩) ∧
    (∀ v, (p s).state = Res.Ok → (p s).value = some v →
      FlatMap p f s = f v ((p s).remainder)) ∧
    ((p s).state = Res.Ok → (p s).value = none →
      FlatMap p f s = ⟨Res.Ok, (p s).remainder, none, (p s).error⟩) := by
  refine ⟨?_, ?_, ?_⟩
  · intro hs
    cases hv : (p s).value <;> simp [FlatMap, hs, hv]
  · intro v hs hv
    simp [FlatMap, hs, hv]
  · intro hs hv
    simp [FlatMap, hs, hv]

/-- C3 witness: the amended theorem's continuation clause at the
counterexample input. -/
theorem flatMap_spec_amended_witness :
    FlatMap (Match ("ab".toList)) (fun _ => Match ("z".toList)) ("abc".toList)
      = Match ("z".toList) ((Match ("ab".toList) ("abc".toList)).remainder) :=
  (flatMap_spec_amended (Match ("ab".toList)) (fun _ => Match ("z".toList))
    ("abc".toList)).2.1 ("ab".toList) (by decide) (by decide)

/-- A parser-shaped function returning `Ok` with no value field, the
record shape `Pred` produces on a rejected value. -/
def okNoValueP : Parser Str := fun s => ⟨Res.Ok, s, none, some ("e")⟩

/-- C10 counterexample: `Pred(Item, false)` on "a" returns `Ok` with no
value; `FlatMap` over it does NOT return a Failure record — it passes
the `Ok` state through (the claim asserts FlatMap returns Failure). -/
theorem okundefined_claim_counterexample :
    (Pred Item (fun _ => false) ("a".toList)).state = Res.Ok ∧
    (Pred Item (fun _ => false) ("a".toList)).value = none ∧
    (FlatMap (Pred Item (fun _ => false)) (fun _ => Item) ("a".toList)).state
      = Res.Ok ∧
    (FlatMap (Pred Item (fun _ => false)) (fun _ => Item) ("a".toList)).state
      ≠ Res.Error := by
  decide

/-- C10 (amended): a sub-record with `Ok` state but absent value is
never treated as a success: `Either`/`FixedEither` skip such a branch
(in any position, by the loop-step clause), `Pair` returns Failure with
the original input whether the record came from its first sub-parser or
— after a wholesome first success — from its second, `ZeroOrMore` stops
iterating, and `PMap`, `Pred` and `FlatMap` skip their
map/predicate/continuation — but the latter three do NOT return a
Failure outcome: they return a record whose state is still `Ok` with no
value (`PMap` and `FlatMap` keep the sub-record's remainder and error;
`Pred` resets the remainder to the input with error
"Failed predicate"). -/
theorem okundefined_spec_amended :
    (∀ (A : Type) (p : Parser A) (rest : List (Parser A)) (s : Str),
      (p s).state = Res.Ok → (p s).value = none →
        EitherGo s (p :: rest) = EitherGo s rest) ∧
    (∀ (T : Type) (p : Parser T) (rest : List (Parser T)) (s : Str),
      (p s).state = Res.Ok → (p s).value = none →
        FixedEitherGo s (p :: rest) = FixedEitherGo s rest) ∧
    (∀ (R1 R2 : Type) (p1 : Parser R1) (p2 : Parser R2) (s : Str),
      (p1 s).state = Res.Ok → (p1 s).value = none →
        Pair p1 p2 s = ⟨Res.Error, s, none, (p1 s).error⟩) ∧
    (∀ (R1 R2 : Type) (p1 : Parser R1) (p2 : Parser R2) (s : Str) (v1 : R1),
      (p1 s).state = Res.Ok → (p1 s).value = some v1 →
      (p2 (p1 s).remainder).state = Res.Ok → (p2 (p1 s).remainder).value = none →
        Pair p1 p2 s = ⟨Res.Error, s, none, (p2 (p1 s).remainder).error⟩) ∧
    (∀ (A : Type) (p : Parser A) (fuel : Nat) (s : Str) (acc : List A),
      (p s).state = Res.Ok → (p s).value = none →
        zeroOrMoreLoop p (fuel + 1) s acc = some ⟨Res.Ok, s, some acc, none⟩) ∧
    (∀ (A B : Type) (p : Parser A) (f : A → B) (s : Str),
      (p s).state = Res.Ok → (p s).value = none →
        PMap p f s = ⟨Res.Ok, (p s).remainder, none, (p s).error⟩) ∧
    (∀ (A : Type) (p : Parser A) (f : A → Bool) (s : Str),
      (p s).state = Res.Ok → (p s).value = none →
        Pred p f s = ⟨Res.Ok, s, none, some ("Failed predicate")⟩) ∧
    (∀ (A B : Type) (p : Parser A) (f : A → Parser B) (s : Str),
      (p s).state = Res.Ok → (p s).value = none →
        FlatMap p f s = ⟨Res.Ok, (p s).remainder, none, (p s).error⟩) := by
  refine ⟨?_, ?_, ?_, ?_, ?_, ?_, ?_, ?_⟩
  · intro A p rest s hs hv
    simp [EitherGo, hs, hv]
  · intro T p rest s hs hv
    simp [FixedEitherGo, hs, hv]
  · intro R1 R2 p1 p2 s hs hv
    simp [Pair, hs, hv]
  · intro R1 R2 p1 p2 s v1 hs1 hv1 hs2 hv2
    simp [Pair, hs1, hv1, hs2, hv2]
  · intro A p fuel s acc hs hv
    simp [zeroOrMoreLoop, hs, hv]
  · intro A B p f s hs hv
    simp [PMap, hs, hv]
  · intro A p f s hs hv
    simp [Pred, hs, hv]
  · intro A B p f s hs hv
    simp [FlatMap, hs, hv]

/-- C10 witness: the amended theorem's two `Pair` clauses applied to a
sub-parser that returns `Ok` with no value, once in the first position
on "a" and once in the second position (after `Item` consumed one
character of "ab"). -/
theorem okundefined_spec_amended_witness :
    Pair okNoValueP Item ("a".toList)
        = ⟨Res.Error, ("a".toList), none, some ("e")⟩ ∧
    Pair Item okNoValueP ("ab".toList)
        = ⟨Res.Error, ("ab".toList), none, some ("e")⟩ :=
  ⟨okundefined_spec_amended.2.2.1 Str Str okNoValueP Item ("a".toList) rfl rfl,
    okundefined_spec_amended.2.2.2.1 Str Str Item okNoValueP ("ab".toList)
      ("a".toList) (by decide) (by decide) (by decide) (by decide)⟩

/-- A parser that strictly consumes input on every wholesome success:
the remainder of a success is shorter than the input. -/
def Consuming {A : Type} (p : Parser A) : Prop :=
  ∀ s v, (p s).state = Res.Ok → (p s).value = some v →
    (p s).remainder.length < s.length

/-- `Run p s vs r`: `vs` is the maximal ordered run of consecutive
wholesome successes of `p` starting at `s`, leaving `r`; the run stops
exactly when `p` no longer returns a wholesome success. -/
inductive Run {A : Type} (p : Parser A) : Str → List A → Str → Prop where
  | stop (s : Str) (h : okVal (p s) = none) : Run p s [] s
  | step (s : Str) (v : A) (vs : List A) (r : Str)
      (h1 : (p s).state = Res.Ok) (h2 : (p s).value = some v)
      (hrest : Run p ((p s).remainder) vs r) : Run p s (v :: vs) r

/-- With a strictly consuming inner parser, the loop exits within
`length + 1` iterations and returns the accumulated maximal run. -/
theorem zeroOrMoreLoop_run {A : Type} (p : Parser A) (hp : Consuming p) :
    ∀ (n : Nat) (s : Str) (acc : List A), s.length < n →
      ∃ vs r, zeroOrMoreLoop p n s acc = some ⟨Res.Ok, r, some (acc ++ vs), none⟩ ∧
        Run p s vs r := by
  intro n
  induction n with
  | zero => intro s acc h; omega
  | succ n ih =>
    intro s acc h
    cases hs : (p s).state with
    | Ok =>
      cases hv : (p s).value with
      | some v =>
        have hlt : (p s).remainder.length < s.length := hp s v hs hv
        obtain ⟨vs, r, heq, hrun⟩ := ih ((p s).remainder) (acc ++ [v]) (by omega)
        refine ⟨v :: vs, r, ?_, Run.step s v vs r hs hv hrun⟩
        simpa [zeroOrMoreLoop, hs, hv] using heq
      | none =>
        refine ⟨[], s, ?_, Run.stop s (by simp [okVal, hs, hv])⟩
        simp [zeroOrMoreLoop, hs, hv]
    | Error =>
      refine ⟨[], s, ?_, Run.stop s (by simp [okVal, hs])⟩
      cases hv : (p s).value <;> simp [zeroOrMoreLoop, hs, hv]

/-- Termination of the `while (true)` loop of `ZeroOrMore` on a given
parser and input: some number of iterations reaches the loop exit. -/
def ZTerminates {A : Type} (p : Parser A) (s : Str) : Prop :=
  ∃ fuel, (ZeroOrMore p fuel s).isSome

/-- C4 counterexample: `Match("")` succeeds on "x" without consuming
anything, and `ZeroOrMore(Match("")).parse("x")` never terminates: no
number of loop iterations reaches the exit of the loop. -/
theorem zeroOrMore_claim_counterexample :
    (Match ([] : Str) ['x']).state = Res.Ok ∧
    (Match ([] : Str) ['x']).remainder = ['x'] ∧
    ¬ ZTerminates (Match ([] : Str)) ['x'] := by
  refine ⟨by decide, by decide, ?_⟩
  rintro ⟨fuel, hsome⟩
  have key : ∀ (n : Nat) (acc : List Str),
      zeroOrMoreLoop (Match ([] : Str)) n ['x'] acc = none := by
    intro n
    induction n with
    | zero => intro acc; rfl
    | succ n ih =>
      intro acc
      have hs : (Match ([] : Str) ['x']).state = Res.Ok := by decide
      have hv : (Match ([] : Str) ['x']).value = some [] := by decide
      have hr : (Match ([] : Str) ['x']).remainder = ['x'] := by decide
      simp [zeroOrMoreLoop, hs, hv, hr, ih]
  simp [ZeroOrMore, key fuel []] at hsome

/-- C4 (amended): for every parser P that strictly consumes input on
every wholesome success, `ZeroOrMore(P).parse(s)` terminates (fuel
`len(s) + 1` reaches the loop exit) and returns Success whose value is
the maximal ordered run of consecutive P-successes starting at s, with
the remainder left by the run (zero matches yield the empty list and
remainder s); for a P that can succeed without consuming, the loop need
not terminate (see the counterexample). -/
theorem zeroOrMore_spec_amended {A : Type} (p : Parser A) (hp : Consuming p) (s : Str) :
    ∃ vs r, ZeroOrMore p (s.length + 1) s = some ⟨Res.Ok, r, some vs, none⟩ ∧
      Run p s vs r := by
  obtain ⟨vs, r, heq, hrun⟩ := zeroOrMoreLoop_run p hp (s.length + 1) s [] (by omega)
  exact ⟨vs, r, by simpa using heq, hrun⟩

theorem item_consuming : Consuming Item := by
  intro s v hs hv
  cases s with
  | nil => simp [Item] at hs
  | cons c rest => simp [Item]

/-- C4 witness: the amended theorem applied to the strictly consuming
`Item` on "ab". -/
theorem zeroOrMore_spec_amended_witness :
    ∃ vs r, ZeroOrMore Item (("ab".toList).length + 1) ("ab".toList)
        = some ⟨Res.Ok, r, some vs, none⟩ ∧ Run Item ("ab".toList) vs r :=
  zeroOrMore_spec_amended Item item_consuming ("ab".toList)

/-- The remainder of every record a parser returns (Success or Failure)
is a suffix of the input it was given. -/
def RemSuffix {T : Type} (p : Parser T) : Prop := ∀ s, (p s).remainder <:+ s

theorem remSuffix_match (lit : Str) : RemSuffix (Match lit) := by
  intro s
  by_cases h : s.take lit.length = lit <;> simp only [Match, h, if_true, if_false]
  · exact List.drop_suffix _ _
  · exact List.suffix_refl _

theorem remSuffix_item : RemSuffix Item := by
  intro s
  cases s with
  | nil => exact List.suffix_refl _
  | cons c rest => exact List.suffix_cons c rest

theorem remSuffix_identifier : RemSuffix Identifier := by
  intro s
  cases s with
  | nil => exact List.suffix_refl _
  | cons c0 rest =>
    by_cases h : isAlphabetic c0 <;> simp only [Identifier, h, if_true, if_false]
    · exact List.drop_suffix _ _
    · exact List.suffix_refl _

theorem remSuffix_inspect {A : Type} {p : Parser A} (h : RemSuffix p) :
    RemSuffix (Inspect p) := h

theorem remSuffix_pair {R1 R2 : Type} {p1 : Parser R1} {p2 : Parser R2}
    (h1 : RemSuffix p1) (h2 : RemSuffix p2) : RemSuffix (Pair p1 p2) := by
  intro s
  cases hs1 : (p1 s).state <;> cases hv1 : (p1 s).value <;>
    simp only [Pair, hs1, hv1]
  case Ok.some v1 =>
    cases hs2 : (p2 (p1 s).remainder).state <;>
      cases hv2 : (p2 (p1 s).remainder).value <;> simp only [hs2, hv2]
    case Ok.some v2 => exact (h2 ((p1 s).remainder)).trans (h1 s)
    all_goals exact List.suffix_refl _
  all_goals exact List.suffix_refl _

theorem remSuffix_pmap {A B : Type} {p : Parser A} (f : A → B) (h : RemSuffix p) :
    RemSuffix (PMap p f) := by
  intro s
  cases hs1 : (p s).state <;> cases hv1 : (p s).value <;>
    simp only [PMap, hs1, hv1] <;> exact h s

theorem remSuffix_left {R1 R2 : Type} {p1 : Parser R1} {p2 : Parser R2}
    (h1 : RemSuffix p1) (h2 : RemSuffix p2) : RemSuffix (Left p1 p2) :=
  fun s => remSuffix_pmap _ (remSuffix_pair h1 h2) s

theorem remSuffix_right {R1 R2 : Type} {p1 : Parser R1} {p2 : Parser R2}
    (h1 : RemSuffix p1) (h2 : RemSuffix p2) : RemSuffix (Right p1 p2) :=
  fun s => remSuffix_pmap _ (remSuffix_pair h1 h2) s

theorem remSuffix_pred {A : Type} {p : Parser A} (f : A → Bool) (h : RemSuffix p) :
    RemSuffix (Pred p f) := by
  intro s
  cases hs1 : (p s).state <;> cases hv1 : (p s).value <;>
    simp only [Pred, hs1, hv1]
  case Ok.some v =>
    by_cases hf : f v <;> simp only [hf, if_true, if_false]
    · exact h s
    · exact List.suffix_refl _
  all_goals exact List.suffix_refl _

theorem remSuffix_flatMap {A B : Type} {p : Parser A} {f : A → Parser B}
    (h : RemSuffix p) (hf : ∀ v, RemSuffix (f v)) : RemSuffix (FlatMap p f) := by
  intro s
  cases hs1 : (p s).state <;> cases hv1 : (p s).value <;>
    simp only [FlatMap, hs1, hv1]
  case Ok.some v => exact (hf v ((p s).remainder)).trans (h s)
  all_goals exact h s

theorem remSuffix_eitherGo {A : Type} (s : Str) (ps : List (Parser A))
    (h : ∀ q ∈ ps, RemSuffix q) : (EitherGo s ps).remainder <:+ s := by
  induction ps with
  | nil => exact List.suffix_refl _
  | cons p rest ih =>
    cases hs1 : (p s).state <;> cases hv1 : (p s).value <;>
      simp only [EitherGo, hs1, hv1]
    case Ok.some v => exact h p (by simp) s
    all_goals exact ih (fun q hq => h q (by simp [hq]))

theorem remSuffix_either {A : Type} (ps : List (Parser A))
    (h : ∀ q ∈ ps, RemSuffix q) : RemSuffix (Either ps) :=
  fun s => remSuffix_eitherGo s ps h

theorem remSuffix_fixedEitherGo {T : Type} (s : Str) (ps : List (Parser T))
    (h : ∀ q ∈ ps, RemSuffix q) : (FixedEitherGo s ps).remainder <:+ s := by
  induction ps with
  | nil => exact List.suffix_refl _
  | cons p rest ih =>
    cases hs1 : (p s).state <;> cases hv1 : (p s).value <;>
      simp only [FixedEitherGo, hs1, hv1]
    case Ok.some v => exact h p (by simp) s
    all_goals exact ih (fun q hq => h q (by simp [hq]))

theorem remSuffix_fixedEither {T : Type} (ps : List (Parser T))
    (h : ∀ q ∈ ps, RemSuffix q) : RemSuffix (FixedEither ps) :=
  fun s => remSuffix_fixedEitherGo s ps h

theorem remSuffix_optional {A : Type} (falsy : A → Bool) {p : Parser A}
    (h : RemSuffix p) : RemSuffix (Optional falsy p) := by
  intro s
  simpa only [Optional] using h s

theorem remSuffix_sequenceGo {A : Type} (ps : List (Parser A))
    (h : ∀ q ∈ ps, RemSuffix q) : ∀ s, (SequenceGo ps s).remainder <:+ s := by
  induction ps with
  | nil => intro s; exact List.suffix_refl _
  | cons p rest ih =>
    intro s
    by_cases hs1 : (p s).state = Res.Error <;>
      simp only [SequenceGo, hs1, if_true, if_false]
    · exact h p (by simp) s
    · exact (ih (fun q hq => h q (by simp [hq])) ((p s).remainder)).trans (h p (by simp) s)

theorem remSuffix_sequence {A : Type} (ps : List (Parser A))
    (h : ∀ q ∈ ps, RemSuffix q) : RemSuffix (Sequence ps) :=
  fun s => remSuffix_sequenceGo ps h s

theorem remSuffix_zeroOrMoreLoop {A : Type} {p : Parser A} (h : RemSuffix p) :
    ∀ (fuel : Nat) (s : Str) (acc : List A) (r : ParseResult (List A)),
      zeroOrMoreLoop p fuel s acc = some r → r.remainder <:+ s := by
  intro fuel
  induction fuel with
  | zero => intro s acc r hr; simp [zeroOrMoreLoop] at hr
  | succ n ih =>
    intro s acc r hr
    cases hs1 : (p s).state <;> cases hv1 : (p s).value <;>
      simp only [zeroOrMoreLoop, hs1, hv1] at hr
    case Ok.some v => exact (ih _ _ _ hr).trans (h s)
    all_goals (injection hr with hr; subst hr; exact List.suffix_refl _)

theorem remSuffix_zeroOrMore {A : Type} {p : Parser A} (h : RemSuffix p)
    (fuel : Nat) (s : Str) (r : ParseResult (List A))
    (hr : ZeroOrMore p fuel s = some r) : r.remainder <:+ s :=
  remSuffix_zeroOrMoreLoop h fuel s [] r hr

theorem remSuffix_oneOrMore {A : Type} {p : Parser A} (h : RemSuffix p)
    (fuel : Nat) (s : Str) (r : ParseResult (List A))
    (hr : OneOrMore p fuel s = some r) : r.remainder <:+ s := by
  cases hs1 : (p s).state <;> cases hv1 : (p s).value <;>
    simp only [OneOrMore, hs1, hv1] at hr
  case Ok.some v =>
    cases hloop : zeroOrMoreLoop p fuel ((p s).remainder) [] with
    | none => simp [hloop] at hr
    | some r2 =>
      obtain ⟨g1, ⟨vs, g2⟩, g3⟩ := zeroOrMoreLoop_shape p fuel ((p s).remainder) [] r2 hloop
      simp only [hloop, g1, g2] at hr
      injection hr with hr
      rw [← hr]
      exact (remSuffix_zeroOrMoreLoop h fuel ((p s).remainder) [] r2 hloop).trans (h s)
  all_goals (injection hr with hr; subst hr; exact List.suffix_refl _)

/-- C7: every leaf parser's remainder is a suffix of its input, every
combinator preserves that invariant when its sub-parsers satisfy it
(for the fuel-indexed repetition loops: every record they can return),
and consequently any parser with the invariant that succeeds on s leaves
a remainder that is a suffix of s with length at most len(s). -/
theorem suffix_invariant_spec :
    (∀ lit : Str, RemSuffix (Match lit)) ∧
    RemSuffix Item ∧
    RemSuffix Identifier ∧
    (∀ (A : Type) (p : Parser A), RemSuffix p → RemSuffix (Inspect p)) ∧
    (∀ (R1 R2 : Type) (p1 : Parser R1) (p2 : Parser R2),
      RemSuffix p1 → RemSuffix p2 → RemSuffix (Pair p1 p2)) ∧
    (∀ (R1 R2 : Type) (p1 : Parser R1) (p2 : Parser R2),
      RemSuffix p1 → RemSuffix p2 → RemSuffix (Left p1 p2)) ∧
    (∀ (R1 R2 : Type) (p1 : Parser R1) (p2 : Parser R2),
      RemSuffix p1 → RemSuffix p2 → RemSuffix (Right p1 p2)) ∧
    (∀ (A B : Type) (p : Parser A) (f : A → B), RemSuffix p → RemSuffix (PMap p f)) ∧
    (∀ (A : Type) (p : Parser A) (f : A → Bool), RemSuffix p → RemSuffix (Pred p f)) ∧
    (∀ (A B : Type) (p : Parser A) (f : A → Parser B),
      RemSuffix p → (∀ v, RemSuffix (f v)) → RemSuffix (FlatMap p f)) ∧
    (∀ (A : Type) (ps : List (Parser A)),
      (∀ q ∈ ps, RemSuffix q) → RemSuffix (Either ps)) ∧
    (∀ (T : Type) (ps : List (Parser T)),
      (∀ q ∈ ps, RemSuffix q) → RemSuffix (FixedEither ps)) ∧
    (∀ (A : Type) (falsy : A → Bool) (p : Parser A),
      RemSuffix p → RemSuffix (Optional falsy p)) ∧
    (∀ (A : Type) (ps : List (Parser A)),
      (∀ q ∈ ps, RemSuffix q) → RemSuffix (Sequence ps)) ∧
    (∀ (A : Type) (p : Parser A), RemSuffix p →
      ∀ (fuel : Nat) (s : Str) (r : ParseResult (List A)),
        ZeroOrMore p fuel s = some r → r.remainder <:+ s) ∧
    (∀ (A : Type) (p : Parser A), RemSuffix p →
      ∀ (fuel : Nat) (s : Str) (r : ParseResult (List A)),
        OneOrMore p fuel s = some r → r.remainder <:+ s) ∧
    (∀ (T : Type) (p : Parser T), RemSuffix p → ∀ s, (p s).state = Res.Ok →
      (p s).remainder <:+ s ∧ (p s).remainder.length ≤ s.length) :=
  ⟨remSuffix_match, remSuffix_item, remSuffix_identifier,
    fun A p h => remSuffix_inspect h,
    fun R1 R2 p1 p2 h1 h2 => remSuffix_pair h1 h2,
    fun R1 R2 p1 p2 h1 h2 => remSuffix_left h1 h2,
    fun R1 R2 p1 p2 h1 h2 => remSuffix_right h1 h2,
    fun A B p f h => remSuffix_pmap f h,
    fun A p f h => remSuffix_pred f h,
    fun A B p f h hf => remSuffix_flatMap h hf,
    fun A ps h => remSuffix_either ps h,
    fun T ps h => remSuffix_fixedEither ps h,
    fun A falsy p h => remSuffix_optional falsy h,
    fun A ps h => remSuffix_sequence ps h,
    fun A p h fuel s r hr => remSuffix_zeroOrMore h fuel s r hr,
    fun A p h fuel s r hr => remSuffix_oneOrMore h fuel s r hr,
    fun T p h s _ => ⟨h s, (h s).length_le⟩⟩

/-- C7 witness: the theorem's consequence clause applied to
`Pair(Match("a"), Item)` (whose invariant follows from the theorem's
leaf and `Pair` clauses) succeeding on "abc". -/
theorem suffix_invariant_spec_witness :
    (Pair (Match ("a".toList)) Item ("abc".toList)).remainder <:+ ("abc".toList) ∧
    (Pair (Match ("a".toList)) Item ("abc".toList)).remainder.length
      ≤ ("abc".toList).length :=
  suffix_invariant_spec.2.2.2.2.2.2.2.2.2.2.2.2.2.2.2.2
    (Str × Str) (Pair (Match ("a".toList)) Item)
    (suffix_invariant_spec.2.2.2.2.1 Str Str (Match ("a".toList)) Item
      (suffix_invariant_spec.1 ("a".toList)) suffix_invariant_spec.2.1)
    ("abc".toList) (by decide)

/-- A parser object with its mutable instance state made explicit:
`parse` takes the current state of the object (tree) and returns the
record together with the state after the call.  Each combinator below is
the same source body as its pure counterpart with the state of the
sub-parser objects threaded through every sub-`parse` call; since no
`parse` method of the library assigns to any field of `this`, each body
returns the state it was given.  (`Left`, `Right` and `OneOrMore` are
compositions of `PMap`, `Pair` and `ZeroOrMore`; the `console.log` of
`Inspect` is output, not instance state.) -/
def StParser (σ T : Type) : Type := σ → Str → ParseResult T × σ

/-- A parse call that leaves the instance state unchanged. -/
def Preserves {σ T : Type} (p : StParser σ T) : Prop := ∀ st s, (p st s).2 = st

def MatchS {σ : Type} (literal : Str) : StParser σ Str := fun st input =>
  (Match literal input, st)

def ItemS {σ : Type} : StParser σ Str := fun st input => (Item input, st)

def IdentifierS {σ : Type} : StParser σ Str := fun st input => (Identifier input, st)

def InspectS {σ A : Type} (p : StParser σ A) : StParser σ A := fun st input => p st input

def PairS {σ R1 R2 : Type} (p1 : StParser σ R1) (p2 : StParser σ R2) :
    StParser σ (R1 × R2) := fun st input =>
  match (p1 st input).1.state, (p1 st input).1.value with
  | Res.Ok, some v1 =>
    match (p2 (p1 st input).2 ((p1 st input).1.remainder)).1.state,
          (p2 (p1 st input).2 ((p1 st input).1.remainder)).1.value with
    | Res.Ok, some v2 =>
      (⟨Res.Ok, (p2 (p1 st input).2 ((p1 st input).1.remainder)).1.remainder,
          some (v1, v2), none⟩,
        (p2 (p1 st input).2 ((p1 st input).1.remainder)).2)
    | _, _ =>
      (⟨Res.Error, input, none,
          (p2 (p1 st input).2 ((p1 st input).1.remainder)).1.error⟩,
        (p2 (p1 st input).2 ((p1 st input).1.remainder)).2)
  | _, _ => (⟨Res.Error, input, none, (p1 st input).1.error⟩, (p1 st input).2)

def PMapS {σ A B : Type} (p : StParser σ A) (map_fn : A → B) : StParser σ B :=
  fun st input =>
  match (p st input).1.state, (p st input).1.value with
  | Res.Ok, some v =>
    (⟨Res.Ok, (p st input).1.remainder, some (map_fn v), none⟩, (p st input).2)
  | _, _ =>
    (⟨(p st input).1.state, (p st input).1.remainder, none, (p st input).1.error⟩,
      (p st input).2)

def LeftS {σ R1 R2 : Type} (p1 : StParser σ R1) (p2 : StParser σ R2) :
    StParser σ R1 := fun st input => PMapS (PairS p1 p2) (fun x => x.1) st input

def RightS {σ R1 R2 : Type} (p1 : StParser σ R1) (p2 : StParser σ R2) :
    StParser σ R2 := fun st input => PMapS (PairS p1 p2) (fun x => x.2) st input

def PredS {σ A : Type} (p : StParser σ A) (pred_fn : A → Bool) : StParser σ A :=
  fun st input =>
  match (p st input).1.state, (p st input).1.value with
  | Res.Ok, some v =>
    if pred_fn v then (⟨Res.Ok, (p st input).1.remainder, some v, none⟩, (p st input).2)
    else (⟨(p st input).1.state, input, none, some ("Failed predicate")⟩, (p st input).2)
  | _, _ =>
    (⟨(p st input).1.state, input, none, some ("Failed predicate")⟩, (p st input).2)

def FlatMapS {σ A B : Type} (p : StParser σ A) (monad_fn : A → StParser σ B) :
    StParser σ B := fun st input =>
  match (p st input).1.state, (p st input).1.value with
  | Res.Ok, some v => monad_fn v ((p st input).2) ((p st input).1.remainder)
  | _, _ =>
    (⟨(p st input).1.state, (p st input).1.remainder, none, (p st input).1.error⟩,
      (p st input).2)

def EitherSGo {σ A : Type} (input : Str) :
    List (StParser σ A) → σ → ParseResult A × σ
  | [], st => (⟨Res.Error, input, none, some ("No parser on the either succeed")⟩, st)
  | p :: rest, st =>
    match (p st input).1.state, (p st input).1.value with
    | Res.Ok, some v =>
      (⟨Res.Ok, (p st input).1.remainder, some v, none⟩, (p st input).2)
    | _, _ => EitherSGo input rest ((p st input).2)

def EitherS {σ A : Type} (parsers : List (StParser σ A)) : StParser σ A :=
  fun st input => EitherSGo input parsers st

def FixedEitherS {σ T : Type} (parsers : List (StParser σ T)) : StParser σ T :=
  fun st input => EitherSGo input parsers st

def OptionalS {σ A : Type} (falsy : A → Bool) (p : StParser σ A) :
    StParser σ (Option A) := fun st input =>
  (⟨Res.Ok, (p st input).1.remainder,
      some (match (p st input).1.value with
            | some v => if falsy v then none else some v
            | none => none),
      none⟩,
    (p st input).2)

def SequenceSGo {σ A : Type} : List (StParser σ A) → σ → Str → ParseResult Unit × σ
  | [], st, input => (⟨Res.Ok, input, some (), none⟩, st)
  | p :: rest, st, input =>
    if (p st input).1.state = Res.Error then
      (⟨Res.Error, (p st input).1.remainder, none,
          some ("Could not fulfill sequence of parsers")⟩,
        (p st input).2)
    else SequenceSGo rest ((p st input).2) ((p st input).1.remainder)

def SequenceS {σ A : Type} (parsers : List (StParser σ A)) : StParser σ Unit :=
  fun st input => SequenceSGo parsers st input

def zeroOrMoreLoopS {σ A : Type} (p : StParser σ A) :
    Nat → σ → Str → List A → Option (ParseResult (List A) × σ)
  | 0, _, _, _ => none
  | fuel + 1, st, input, acc =>
    match (p st input).1.state, (p st input).1.value with
    | Res.Ok, some v =>
      zeroOrMoreLoopS p fuel ((p st input).2) ((p st input).1.remainder) (acc ++ [v])
    | _, _ => some (⟨Res.Ok, input, some acc, none⟩, st)

theorem preserves_matchS {σ : Type} (lit : Str) :
    Preserves (MatchS lit : StParser σ Str) := fun _ _ => rfl

theorem preserves_itemS {σ : Type} : Preserves (ItemS : StParser σ Str) :=
  fun _ _ => rfl

theorem preserves_identifierS {σ : Type} : Preserves (IdentifierS : StParser σ Str) :=
  fun _ _ => rfl

theorem preserves_inspectS {σ A : Type} {p : StParser σ A} (h : Preserves p) :
    Preserves (InspectS p) := h

theorem preserves_pairS {σ R1 R2 : Type} {p1 : StParser σ R1} {p2 : StParser σ R2}
    (h1 : Preserves p1) (h2 : Preserves p2) : Preserves (PairS p1 p2) := by
  intro st s
  cases g1 : (p1 st s).1.state <;> cases g2 : (p1 st s).1.value <;>
    simp only [PairS, g1, g2]
  case Ok.some v1 =>
    cases g3 : (p2 (p1 st s).2 ((p1 st s).1.remainder)).1.state <;>
      cases g4 : (p2 (p1 st s).2 ((p1 st s).1.remainder)).1.value <;>
      simp only [g3, g4] <;> rw [h2, h1]
  all_goals rw [h1]

theorem preserves_pmapS {σ A B : Type} {p : StParser σ A} (f : A → B)
    (h : Preserves p) : Preserves (PMapS p f) := by
  intro st s
  cases g1 : (p st s).1.state <;> cases g2 : (p st s).1.value <;>
    simp only [PMapS, g1, g2] <;> rw [h]

theorem preserves_leftS {σ R1 R2 : Type} {p1 : StParser σ R1} {p2 : StParser σ R2}
    (h1 : Preserves p1) (h2 : Preserves p2) : Preserves (LeftS p1 p2) :=
  fun st s => preserves_pmapS _ (preserves_pairS h1 h2) st s

theorem preserves_rightS {σ R1 R2 : Type} {p1 : StParser σ R1} {p2 : StParser σ R2}
    (h1 : Preserves p1) (h2 : Preserves p2) : Preserves (RightS p1 p2) :=
  fun st s => preserves_pmapS _ (preserves_pairS h1 h2) st s

theorem preserves_predS {σ A : Type} {p : StParser σ A} (f : A → Bool)
    (h : Preserves p) : Preserves (PredS p f) := by
  intro st s
  cases g1 : (p st s).1.state <;> cases g2 : (p st s).1.value <;>
    simp only [PredS, g1, g2]
  case Ok.some v =>
    by_cases hf : f v
    · simp only [hf, if_true]
      exact h st s
    · simp only [hf, if_false, Bool.false_eq_true]
      exact h st s
  all_goals rw [h]

theorem preserves_flatMapS {σ A B : Type} {p : StParser σ A}
    {f : A → StParser σ B} (h : Preserves p) (hf : ∀ v, Preserves (f v)) :
    Preserves (FlatMapS p f) := by
  intro st s
  cases g1 : (p st s).1.state <;> cases g2 : (p st s).1.value <;>
    simp only [FlatMapS, g1, g2]
  case Ok.some v => rw [hf v, h]
  all_goals rw [h]

theorem preserves_eitherSGo {σ A : Type} (s : Str) (ps : List (StParser σ A))
    (h : ∀ q ∈ ps, Preserves q) : ∀ st, (EitherSGo s ps st).2 = st := by
  induction ps with
  | nil => intro st; rfl
  | cons p rest ih =>
    intro st
    cases g1 : (p st s).1.state <;> cases g2 : (p st s).1.value <;>
      simp only [EitherSGo, g1, g2]
    case Ok.some v => rw [h p (by simp)]
    all_goals rw [ih (fun q hq => h q (by simp [hq])), h p (by simp)]

theorem preserves_eitherS {σ A : Type} (ps : List (StParser σ A))
    (h : ∀ q ∈ ps, Preserves q) : Preserves (EitherS ps) :=
  fun st s => preserves_eitherSGo s ps h st

theorem preserves_fixedEitherS {σ T : Type} (ps : List (StParser σ T))
    (h : ∀ q ∈ ps, Preserves q) : Preserves (FixedEitherS ps) :=
  fun st s => preserves_eitherSGo s ps h st

theorem preserves_optionalS {σ A : Type} (falsy : A → Bool) {p : StParser σ A}
    (h : Preserves p) : Preserves (OptionalS falsy p) := by
  intro st s
  simp only [OptionalS]
  rw [h]

theorem preserves_sequenceSGo {σ A : Type} (ps : List (StParser σ A))
    (h : ∀ q ∈ ps, Preserves q) : ∀ st s, (SequenceSGo ps st s).2 = st := by
  induction ps with
  | nil => intro st s; rfl
  | cons p rest ih =>
    intro st s
    by_cases g1 : (p st s).1.state = Res.Error <;>
      simp only [SequenceSGo, g1, if_true, if_false]
    · rw [h p (by simp)]
    · rw [ih (fun q hq => h q (by simp [hq])), h p (by simp)]

theorem preserves_sequenceS {σ A : Type} (ps : List (StParser σ A))
    (h : ∀ q ∈ ps, Preserves q) : Preserves (SequenceS ps) :=
  fun st s => preserves_sequenceSGo ps h st s

theorem preserves_zeroOrMoreLoopS {σ A : Type} {p : StParser σ A}
    (h : Preserves p) :
    ∀ (fuel : Nat) (st : σ) (s : Str) (acc : List A) r st2,
      zeroOrMoreLoopS p fuel st s acc = some (r, st2) → st2 = st := by
  intro fuel
  induction fuel with
  | zero => intro st s acc r st2 hr; simp [zeroOrMoreLoopS] at hr
  | succ n ih =>
    intro st s acc r st2 hr
    cases g1 : (p st s).1.state <;> cases g2 : (p st s).1.value <;>
      simp only [zeroOrMoreLoopS, g1, g2] at hr
    case Ok.some v => rw [ih _ _ _ _ _ hr, h]
    all_goals (injection hr with hr; injection hr with hr1 hr2; exact hr2.symm)

/-- C8: with the instance state of every parser object made explicit,
each leaf parser's parse call returns its state unchanged, every
combinator's parse call preserves the state whenever its sub-parsers
do (for the fuel-indexed repetition loop: whenever it returns), and
consequently invoking `parse` twice on the same instance with the same
input yields identical ParseRecords: the second call is applied to the
state left by the first and returns the very same record-state pair. -/
theorem purity_spec :
    (∀ (σ : Type) (lit : Str), Preserves (MatchS lit : StParser σ Str)) ∧
    (∀ σ : Type, Preserves (ItemS : StParser σ Str)) ∧
    (∀ σ : Type, Preserves (IdentifierS : StParser σ Str)) ∧
    (∀ (σ A : Type) (p : StParser σ A), Preserves p → Preserves (InspectS p)) ∧
    (∀ (σ R1 R2 : Type) (p1 : StParser σ R1) (p2 : StParser σ R2),
      Preserves p1 → Preserves p2 → Preserves (PairS p1 p2)) ∧
    (∀ (σ R1 R2 : Type) (p1 : StParser σ R1) (p2 : StParser σ R2),
      Preserves p1 → Preserves p2 → Preserves (LeftS p1 p2)) ∧
    (∀ (σ R1 R2 : Type) (p1 : StParser σ R1) (p2 : StParser σ R2),
      Preserves p1 → Preserves p2 → Preserves (RightS p1 p2)) ∧
    (∀ (σ A B : Type) (p : StParser σ A) (f : A → B),
      Preserves p → Preserves (PMapS p f)) ∧
    (∀ (σ A : Type) (p : StParser σ A) (f : A → Bool),
      Preserves p → Preserves (PredS p f)) ∧
    (∀ (σ A B : Type) (p : StParser σ A) (f : A → StParser σ B),
      Preserves p → (∀ v, Preserves (f v)) → Preserves (FlatMapS p f)) ∧
    (∀ (σ A : Type) (ps : List (StParser σ A)),
      (∀ q ∈ ps, Preserves q) → Preserves (EitherS ps)) ∧
    (∀ (σ T : Type) (ps : List (StParser σ T)),
      (∀ q ∈ ps, Preserves q) → Preserves (FixedEitherS ps)) ∧
    (∀ (σ A : Type) (falsy : A → Bool) (p : StParser σ A),
      Preserves p → Preserves (OptionalS falsy p)) ∧
    (∀ (σ A : Type) (ps : List (StParser σ A)),
      (∀ q ∈ ps, Preserves q) → Preserves (SequenceS ps)) ∧
    (∀ (σ A : Type) (p : StParser σ A), Preserves p →
      ∀ (fuel : Nat) (st : σ) (s : Str) (acc : List A) r st2,
        zeroOrMoreLoopS p fuel st s acc = some (r, st2) → st2 = st) ∧
    (∀ (σ T : Type) (p : StParser σ T), Preserves p →
      ∀ (st : σ) (s : Str), p ((p st s).2) s = p st s) :=
  ⟨fun σ lit => preserves_matchS lit,
    fun σ => preserves_itemS,
    fun σ => preserves_identifierS,
    fun σ A p h => preserves_inspectS h,
    fun σ R1 R2 p1 p2 h1 h2 => preserves_pairS h1 h2,
    fun σ R1 R2 p1 p2 h1 h2 => preserves_leftS h1 h2,
    fun σ R1 R2 p1 p2 h1 h2 => preserves_rightS h1 h2,
    fun σ A B p f h => preserves_pmapS f h,
    fun σ A p f h => preserves_predS f h,
    fun σ A B p f h hf => preserves_flatMapS h hf,
    fun σ A ps h => preserves_eitherS ps h,
    fun σ T ps h => preserves_fixedEitherS ps h,
    fun σ A falsy p h => preserves_optionalS falsy h,
    fun σ A ps h => preserves_sequenceS ps h,
    fun σ A p h fuel st s acc r st2 hr => preserves_zeroOrMoreLoopS h fuel st s acc r st2 hr,
    fun σ T p h st s => by rw [h st s]⟩

/-- C8 witness: the repeat-call clause applied to
`PairS (MatchS "a") ItemS` over the unit state: the second invocation on
"ab" yields the identical record-state pair. -/
theorem purity_spec_witness :
    (PairS (MatchS ("a".toList)) ItemS : StParser Unit (Str × Str))
        (((PairS (MatchS ("a".toList)) ItemS : StParser Unit (Str × Str))
            () ("ab".toList)).2) ("ab".toList)
      = (PairS (MatchS ("a".toList)) ItemS : StParser Unit (Str × Str))
          () ("ab".toList) :=
  purity_spec.2.2.2.2.2.2.2.2.2.2.2.2.2.2.2
    Unit (Str × Str) (PairS (MatchS ("a".toList)) ItemS)
    (purity_spec.2.2.2.2.1 Unit Str Str (MatchS ("a".toList)) ItemS
      (purity_spec.1 Unit ("a".toList)) (purity_spec.2.1 Unit))
    () ("ab".toList)

end PC
